import Mathlib

/-!
Verification of the Wardley-map library (`src/specify_cli/wardley_map.py`).

The Python module defines two dataclasses, `WardleyComponent` and `WardleyMap`,
together with YAML load/save helpers.  We embed the data model and every
operation shallowly:

* Python floats are only ever stored and compared by this library (never
  computed with), so we model them as rationals (`PyFloat := Rat`).
* Python dicts used as documents are modelled structurally: a key that may be
  absent becomes an `Option` field (`dict.get(k, d)` becomes `Option.getD`,
  `dict[k]` on a missing key becomes an error value).
* Mutation is modelled by explicit state passing: `link_components` returns the
  updated map together with an optional error, mirroring the fact that the
  Python method raises strictly before any mutation when an endpoint is
  missing.
* The YAML text layer (`yaml.safe_dump` / `yaml.safe_load`) is external to the
  repository; we work at the level of parsed documents (`MapDoc`), on which a
  round-trippable value serializes and parses back to itself.  An empty or
  content-free file parses to `none` (Python's `yaml.safe_load(fh) or {}`).
* Reference sharing (which list object a field aliases) is invisible in the
  pure model, so for the copy guarantee of `WardleyComponent.to_dict` we give a
  second, heap-aware embedding (`Store` / `HComponent`) in which list values
  live at addresses and `list(xs)` allocates a fresh cell.
-/

/-- Python floats as stored by this library: they are only constructed,
stored and compared, never computed with, so rationals are a faithful carrier. -/
abbrev PyFloat := Rat

/-- Arbitrary YAML-representable metadata values (scalars, sequences,
mappings); the graph logic treats them as opaque and passes them through. -/
inductive YVal where
  | nullV : YVal
  | boolV : Bool → YVal
  | intV : Int → YVal
  | ratV : Rat → YVal
  | strV : String → YVal
  | listV : List YVal → YVal
  | dictV : List (String × YVal) → YVal

/-- The metadata mapping of a map: an insertion-ordered string-keyed dict. -/
abbrev Metadata := List (String × YVal)

/-- `WardleyComponent` (wardley_map.py lines 10-17): one node of the map. -/
structure WardleyComponent where
  name : String
  visibility : PyFloat
  evolution : PyFloat
  dependencies : List String
deriving DecidableEq, Repr

/-- A component entry of a document: the dict produced by
`WardleyComponent.to_dict` or read by `load_map`.  Each field is `Option`al
because a hand-written document may omit the key. -/
structure CompEntry where
  name? : Option String
  visibility? : Option PyFloat
  evolution? : Option PyFloat
  dependencies? : Option (List String)
deriving DecidableEq, Repr

/-- `WardleyComponent.to_dict` (lines 19-26): the serialisable dictionary with
keys `name`, `visibility`, `evolution`, `dependencies`; `list(self.dependencies)`
is value-equal to `self.dependencies` (the copy aspect is treated in the
heap-aware model below). -/
def WardleyComponent.to_dict (c : WardleyComponent) : CompEntry :=
  { name? := some c.name
    visibility? := some c.visibility
    evolution? := some c.evolution
    dependencies? := some c.dependencies }

/-- `WardleyMap` (lines 29-34): ordered components plus open metadata. -/
structure WardleyMap where
  components : List WardleyComponent
  metadata : Metadata

/-- `WardleyMap.add_component` (lines 36-38): append to the component list. -/
def WardleyMap.add_component (m : WardleyMap) (c : WardleyComponent) : WardleyMap :=
  { m with components := m.components ++ [c] }

/-- The loop body of `WardleyMap.get_component` (lines 49-53): scan the list in
order and return the first component whose name equals the query. -/
def findComponent (n : String) : List WardleyComponent → Option WardleyComponent
  | [] => none
  | c :: rest => if c.name = n then some c else findComponent n rest

/-- `WardleyMap.get_component` (lines 49-53). -/
def WardleyMap.get_component (m : WardleyMap) (n : String) : Option WardleyComponent :=
  findComponent n m.components

/-- The error raised by `link_components` (`ValueError("Both source and target
components must exist")`, line 45); the spec calls it `MissingComponentError`. -/
inductive LinkError where
  | missingComponent : LinkError
deriving DecidableEq, Repr

/-- Replace the first element satisfying `p` by its image under `f`, leaving
everything else unchanged.  This is what mutating the object returned by
`get_component` does to the component list. -/
def updateFirst (p : WardleyComponent → Bool) (f : WardleyComponent → WardleyComponent) :
    List WardleyComponent → List WardleyComponent
  | [] => []
  | c :: rest => if p c then f c :: rest else c :: updateFirst p f rest

/-- The mutation step of `link_components`: append `target` to the
dependencies of the first component named `source`. -/
def linkUpdate (source target : String) (l : List WardleyComponent) :
    List WardleyComponent :=
  updateFirst (fun c => c.name == source)
    (fun c => { c with dependencies := c.dependencies ++ [target] }) l

/-- `WardleyMap.link_components` (lines 40-47) in state-passing form.  Both
endpoints are looked up first; if either is missing the error is raised before
any mutation, so the map is returned unchanged alongside the error.  On
success, `target` is appended to the dependencies of the first component named
`source` unless already present. -/
def WardleyMap.link_components (m : WardleyMap) (source target : String) :
    WardleyMap × Option LinkError :=
  match m.get_component source, m.get_component target with
  | some src, some _ =>
      if target ∈ src.dependencies then (m, none)
      else ({ m with components := linkUpdate source target m.components }, none)
  | _, _ => (m, some LinkError.missingComponent)

/-- A parsed document: the top-level mapping with optional `components` and
`metadata` keys. -/
structure MapDoc where
  components? : Option (List CompEntry)
  metadata? : Option Metadata

/-- `WardleyMap.to_dict` (lines 55-60): the dictionary form written by
`save_map`; both keys are always present. -/
def WardleyMap.to_dict (m : WardleyMap) : MapDoc :=
  { components? := some (m.components.map WardleyComponent.to_dict)
    metadata? := some m.metadata }

/-- The error raised by `load_map` on a component entry with no `name` key
(a `KeyError` from `c["name"]`, line 78); the spec calls it `MissingFieldError`. -/
inductive LoadError where
  | missingField : LoadError
deriving DecidableEq, Repr

/-- The component list comprehension of `load_map` (lines 76-84): each entry
needs a `name` (hard failure otherwise); `visibility`/`evolution` default to
0.0 and `dependencies` to the empty list via `dict.get`. -/
def loadComponents : List CompEntry → Except LoadError (List WardleyComponent)
  | [] => Except.ok []
  | e :: rest =>
      match e.name? with
      | none => Except.error LoadError.missingField
      | some n =>
          match loadComponents rest with
          | Except.error err => Except.error err
          | Except.ok cs =>
              Except.ok ({ name := n
                           visibility := e.visibility?.getD 0
                           evolution := e.evolution?.getD 0
                           dependencies := e.dependencies?.getD [] } :: cs)

/-- `load_map` (lines 65-87) at the parsed-document level.  The argument is
`none` when the file is empty or has no top-level content
(`yaml.safe_load(fh) or {}`); missing `components`/`metadata` keys default to
empty. -/
def load_map (d : Option MapDoc) : Except LoadError WardleyMap :=
  let data := d.getD { components? := none, metadata? := none }
  match loadComponents (data.components?.getD []) with
  | Except.error err => Except.error err
  | Except.ok cs => Except.ok { components := cs, metadata := data.metadata?.getD [] }

/-- `save_map` (lines 89-92) at the parsed-document level: it writes
`map_obj.to_dict()`; `yaml.safe_dump` with `sort_keys=False` serializes a
round-trippable document so that parsing it back yields the same document. -/
def save_map (m : WardleyMap) : MapDoc :=
  m.to_dict

/-- The `TypeError` Python raises when a required dataclass argument is
omitted at construction. -/
inductive CtorError where
  | missingRequiredArgument : CtorError
deriving DecidableEq, Repr

/-- The arguments a caller passes to the generated `WardleyComponent.__init__`:
`name` is positional-required in every call that parses; each of the remaining
parameters may be supplied or omitted. -/
structure CtorArgs where
  nameArg : String
  visibilityArg : Option PyFloat
  evolutionArg : Option PyFloat
  dependenciesArg : Option (List String)

/-- The dataclass-generated constructor of `WardleyComponent` (lines 10-17):
`visibility` and `evolution` have no default, so omitting either is a
`TypeError`; `dependencies` defaults to a fresh empty list
(`field(default_factory=list)`). -/
def constructComponent (a : CtorArgs) : Except CtorError WardleyComponent :=
  match a.visibilityArg, a.evolutionArg with
  | some v, some e =>
      Except.ok { name := a.nameArg
                  visibility := v
                  evolution := e
                  dependencies := a.dependenciesArg.getD [] }
  | _, _ => Except.error CtorError.missingRequiredArgument

/-- A heap of list-of-string cells, for the aliasing-aware model of
`WardleyComponent.to_dict`: Python list objects live at addresses. -/
structure Store where
  cells : List (List String)

/-- Dereference an address (addresses are indices into the cell list). -/
def Store.read (s : Store) (a : Nat) : List String :=
  s.cells.getD a []

/-- Overwrite the cell at an address: any in-place mutation of a Python list
(append, remove, slice assignment, ...) is a write of its new contents. -/
def Store.write (s : Store) (a : Nat) (v : List String) : Store :=
  { cells := s.cells.set a v }

/-- Allocate a fresh cell holding `v`; this is what `list(xs)` does. -/
def Store.alloc (s : Store) (v : List String) : Store × Nat :=
  ({ cells := s.cells ++ [v] }, s.cells.length)

/-- A heap-allocated component: its `dependencies` field is a reference to a
list cell, as in Python. -/
structure HComponent where
  name : String
  visibility : PyFloat
  evolution : PyFloat
  depsRef : Nat

/-- The dictionary returned by `to_dict`, with its `dependencies` value also a
reference to a list cell. -/
structure DictProjection where
  name : String
  visibility : PyFloat
  evolution : PyFloat
  depsRef : Nat

/-- `WardleyComponent.to_dict` (lines 19-26) in the heap-aware model:
`list(self.dependencies)` allocates a fresh cell with a copy of the current
contents, and the returned dict references that fresh cell. -/
def HComponent.to_dict (s : Store) (c : HComponent) : Store × DictProjection :=
  let copied := Store.alloc s (Store.read s c.depsRef)
  (copied.1,
   { name := c.name
     visibility := c.visibility
     evolution := c.evolution
     depsRef := copied.2 })

/-- Module-level convenience wrapper (lines 97-102). -/
def add_component (m : WardleyMap) (c : WardleyComponent) : WardleyMap :=
  m.add_component c

/-- Module-level convenience wrapper (lines 105-107). -/
def link_components (m : WardleyMap) (source target : String) :
    WardleyMap × Option LinkError :=
  m.link_components source target

/-- Module-level convenience wrapper (lines 110-112). -/
def to_dict (m : WardleyMap) : MapDoc :=
  m.to_dict

/-! Concrete sample values used by witnesses and counterexamples. -/

/-- A sample component named `A` with no dependencies. -/
def sampleA : WardleyComponent :=
  { name := "A", visibility := 0, evolution := 0, dependencies := [] }

/-- A sample component named `B`. -/
def sampleB : WardleyComponent :=
  { name := "B", visibility := 1, evolution := 1, dependencies := [] }

/-- A sample map holding `A` and `B`. -/
def sampleMap : WardleyMap :=
  { components := [sampleA, sampleB], metadata := [] }

/-- The map obtained from `sampleMap` by linking `A` to `B`. -/
def sampleMapLinked : WardleyMap :=
  { components := [{ name := "A", visibility := 0, evolution := 0, dependencies := ["B"] },
                   sampleB],
    metadata := [] }

/-- A sample map holding only `A`. -/
def sampleMapNoB : WardleyMap :=
  { components := [sampleA], metadata := [] }

/-- A map whose component `A` already lists `B` twice among its dependencies
(duplicates are permitted by construction), together with a component `B`. -/
def dupDepsMap : WardleyMap :=
  { components := [{ name := "A", visibility := 0, evolution := 0, dependencies := ["B", "B"] },
                   { name := "B", visibility := 0, evolution := 0, dependencies := [] }],
    metadata := [] }

/-- A map already holding a component named `A` (with visibility 1). -/
def dupNameMap : WardleyMap :=
  { components := [{ name := "A", visibility := 1, evolution := 1, dependencies := [] }],
    metadata := [] }

/-- A second, distinct component also named `A`. -/
def newA : WardleyComponent :=
  { name := "A", visibility := 0, evolution := 0, dependencies := [] }

/-- A sample document whose only entry omits `visibility` and `dependencies`. -/
def sampleDoc : MapDoc :=
  { components? := some [{ name? := some "A", visibility? := none,
                           evolution? := some 2, dependencies? := none }],
    metadata? := none }

/-- The map `load_map` produces from `sampleDoc`. -/
def sampleLoaded : WardleyMap :=
  { components := [{ name := "A", visibility := 0, evolution := 2, dependencies := [] }],
    metadata := [] }

/-- An entry with no `name` key. -/
def badEntry : CompEntry :=
  { name? := none, visibility? := some 1, evolution? := none, dependencies? := none }

/-- A document whose second component entry lacks a `name`. -/
def badDoc : MapDoc :=
  { components? := some [{ name? := some "A", visibility? := none,
                           evolution? := none, dependencies? := none },
                         badEntry],
    metadata? := none }

/-- A sample one-cell store. -/
def sampleStore : Store :=
  { cells := [["Database"]] }

/-- A sample heap component whose dependencies live at address 0. -/
def sampleHComp : HComponent :=
  { name := "CRM", visibility := 0, evolution := 0, depsRef := 0 }

/-! Helper lemmas about the first-match scan. -/

/-- The scan returns `none` exactly when no component bears the queried name. -/
theorem findComponent_eq_none_iff (n : String) (l : List WardleyComponent) :
    findComponent n l = none ↔ ∀ c ∈ l, c.name ≠ n := by
  induction l with
  | nil => simp [findComponent]
  | cons a rest ih =>
      by_cases h : a.name = n
      · simp [findComponent, h]
      · simp [findComponent, h, ih]

/-- A successful scan returns a member bearing the queried name. -/
theorem findComponent_some_mem (n : String) (l : List WardleyComponent)
    (c : WardleyComponent) (h : findComponent n l = some c) :
    c ∈ l ∧ c.name = n := by
  induction l with
  | nil => simp [findComponent] at h
  | cons a rest ih =>
      by_cases ha : a.name = n
      · simp [findComponent, ha] at h
        subst h
        exact ⟨List.mem_cons_self a rest, ha⟩
      · simp [findComponent, ha] at h
        rcases ih h with ⟨hmem, hname⟩
        exact ⟨List.mem_cons_of_mem a hmem, hname⟩

/-- The scan returns `some c` exactly when `c` is the first element of the list
bearing the queried name: everything strictly before it bears a different name. -/
theorem findComponent_eq_some_iff (n : String) (l : List WardleyComponent)
    (c : WardleyComponent) :
    findComponent n l = some c ↔
      ∃ l₁ l₂, l = l₁ ++ c :: l₂ ∧ c.name = n ∧ ∀ x ∈ l₁, x.name ≠ n := by
  induction l with
  | nil =>
      simp only [findComponent]
      constructor
      · intro h; cases h
      · rintro ⟨l₁, l₂, hl, -, -⟩
        exact absurd hl (by simp)
  | cons a rest ih =>
      by_cases ha : a.name = n
      · simp only [findComponent, ha, if_pos rfl]
        constructor
        · intro h
          cases h
          exact ⟨[], rest, rfl, ha, by simp⟩
        · rintro ⟨l₁, l₂, hl, hc, hfst⟩
          cases l₁ with
          | nil =>
              simp at hl
              rw [hl.1]
              simp
          | cons b l₁' =>
              have hb : b ∈ b :: l₁' := List.mem_cons_self b l₁'
              have : a = b := by
                have := congrArg (fun xs => List.head? xs) hl
                simpa using this
              exact absurd (this ▸ ha) (hfst b hb)
      · simp only [findComponent, if_neg ha]
        rw [ih]
        constructor
        · rintro ⟨l₁, l₂, hl, hc, hfst⟩
          refine ⟨a :: l₁, l₂, by rw [hl]; rfl, hc, ?_⟩
          intro x hx
          rcases List.mem_cons.mp hx with hxa | hxl
          · rw [hxa]; exact ha
          · exact hfst x hxl
        · rintro ⟨l₁, l₂, hl, hc, hfst⟩
          cases l₁ with
          | nil =>
              simp at hl
              exact absurd (hl.1 ▸ hc) ha
          | cons b l₁' =>
              have hab : a = b ∧ rest = l₁' ++ c :: l₂ := by
                constructor
                · have := congrArg (fun xs => List.head? xs) hl
                  simpa using this
                · have := congrArg (fun xs => List.tail xs) hl
                  simpa using this
              refine ⟨l₁', l₂, hab.2, hc, ?_⟩
              intro x hx
              exact hfst x (List.mem_cons_of_mem b hx)

/-! Helper lemmas about updating the first match (mutation through the object
returned by `get_component`). -/

/-- Appending a dependency to the first component named `n` is seen by a later
lookup of `n`: the lookup returns the updated component. -/
theorem findComponent_updateFirst (n t : String) (l : List WardleyComponent)
    (c : WardleyComponent) (h : findComponent n l = some c) :
    findComponent n
      (updateFirst (fun x => x.name == n)
        (fun x => { x with dependencies := x.dependencies ++ [t] }) l) =
      some { c with dependencies := c.dependencies ++ [t] } := by
  induction l with
  | nil => simp [findComponent] at h
  | cons a rest ih =>
      by_cases ha : a.name = n
      · simp [findComponent, ha] at h
        subst h
        simp [updateFirst, findComponent, ha]
      · simp [findComponent, ha] at h
        simp [updateFirst, findComponent, ha, ih h]

/-- Updating the first component named `n` changes no name, so whether any
lookup succeeds is unchanged. -/
theorem findComponent_updateFirst_isSome (n t q : String) (l : List WardleyComponent) :
    (findComponent q
      (updateFirst (fun x => x.name == n)
        (fun x => { x with dependencies := x.dependencies ++ [t] }) l)).isSome =
      (findComponent q l).isSome := by
  induction l with
  | nil => simp [updateFirst]
  | cons a rest ih =>
      by_cases hb : a.name = n
      · have hbeq : (a.name == n) = true := beq_iff_eq.mpr hb
        by_cases hq : a.name = q
        · have hnq : n = q := hb.symm.trans hq
          simp [updateFirst, findComponent, hbeq, hb, hq, hnq]
        · have hnq : ¬n = q := fun h => hq (hb.trans h)
          simp [updateFirst, findComponent, hbeq, hb, hq, hnq]
      · have hbeq : (a.name == n) = false := by
          simp [hb]
        by_cases hq : a.name = q
        · have hqn : ¬q = n := fun h => hb (hq.trans h)
          simp [updateFirst, findComponent, hbeq, hq, hqn]
        · simp [updateFirst, findComponent, hbeq, hq, ih]

/-! Helper lemmas about document loading. -/

/-- Loading the entries produced by serializing a component list reproduces the
list exactly. -/
theorem loadComponents_map_to_dict (l : List WardleyComponent) :
    loadComponents (l.map WardleyComponent.to_dict) = Except.ok l := by
  induction l with
  | nil => rfl
  | cons c rest ih =>
      simp [loadComponents, WardleyComponent.to_dict, ih]

/-- A successfully loaded component list matches the entry list pointwise:
names are taken verbatim and every absent field gets its documented default. -/
theorem loadComponents_forall₂ (l : List CompEntry) (cs : List WardleyComponent)
    (h : loadComponents l = Except.ok cs) :
    List.Forall₂ (fun (e : CompEntry) (c : WardleyComponent) =>
        e.name? = some c.name ∧
        c.visibility = e.visibility?.getD 0 ∧
        c.evolution = e.evolution?.getD 0 ∧
        c.dependencies = e.dependencies?.getD []) l cs := by
  induction l generalizing cs with
  | nil =>
      simp [loadComponents] at h
      subst h
      exact List.Forall₂.nil
  | cons e rest ih =>
      cases hn : e.name? with
      | none => simp [loadComponents, hn] at h
      | some nm =>
          cases hr : loadComponents rest with
          | error err => simp [loadComponents, hn, hr] at h
          | ok cs' =>
              simp only [loadComponents, hn, hr] at h
              cases h
              exact List.Forall₂.cons ⟨hn, rfl, rfl, rfl⟩ (ih cs' hr)

/-- An entry without a name makes the whole load fail with the missing-field
error, wherever the entry sits in the list. -/
theorem loadComponents_missing_name (l : List CompEntry) (e : CompEntry)
    (hmem : e ∈ l) (hname : e.name? = none) :
    loadComponents l = Except.error LoadError.missingField := by
  induction l with
  | nil => simp at hmem
  | cons a rest ih =>
      rcases List.mem_cons.mp hmem with hae | hrest
      · subst hae
        simp [loadComponents, hname]
      · cases ha : a.name? with
        | none => simp [loadComponents, ha]
        | some nm => simp [loadComponents, ha, ih hrest]

/-! Helper lemmas about the list-cell store. -/

/-- Reading a just-appended cell at the old length returns its contents. -/
theorem getD_append_length (l : List (List String)) (a : List String) :
    (l ++ [a]).getD l.length [] = a := by
  induction l with
  | nil => rfl
  | cons x rest ih => exact ih

/-- Writing one cell leaves every other cell unchanged. -/
theorem getD_set_ne (l : List (List String)) (i j : Nat) (v : List String)
    (hij : i ≠ j) : (l.set i v).getD j [] = l.getD j [] := by
  induction l generalizing i j with
  | nil => rfl
  | cons x rest ih =>
      cases i with
      | zero =>
          cases j with
          | zero => exact absurd rfl hij
          | succ j' => rfl
      | succ i' =>
          cases j with
          | zero => rfl
          | succ j' =>
              exact ih i' j' (fun h => hij (by rw [h]))

/-! Claim theorems. -/

/-- C1: saving a Map Graph and loading the written document yields the same
graph: the same component sequence in the same order with equal name,
visibility, evolution and dependencies per component, and equal metadata.  The
document level is the parsed form, on which the serialization format is the
identity for round-trippable values (the claim's hypothesis). -/
theorem save_load_roundtrip (m : WardleyMap) :
    load_map (some (save_map m)) = Except.ok m := by
  simp [load_map, save_map, WardleyMap.to_dict, loadComponents_map_to_dict]

/-- C4: `get_component` is a total function (it never throws): it returns
`none` exactly when no component bears the queried name, and `some c` exactly
when `c` is the first component in insertion order whose name is exactly the
queried string. -/
theorem get_component_first_match (m : WardleyMap) (n : String) :
    (m.get_component n = none ↔ ∀ c ∈ m.components, c.name ≠ n) ∧
    ∀ c, m.get_component n = some c ↔
      ∃ l₁ l₂, m.components = l₁ ++ c :: l₂ ∧ c.name = n ∧ ∀ x ∈ l₁, x.name ≠ n :=
  ⟨findComponent_eq_none_iff n m.components,
   fun c => findComponent_eq_some_iff n m.components c⟩

/-- C3: `link_components` signals the missing-component error exactly when at
least one of the two names does not resolve to a component of the graph; when
both resolve, no error is produced. -/
theorem link_components_error_iff (m : WardleyMap) (A B : String) :
    (m.link_components A B).2 = some LinkError.missingComponent ↔
      (∀ c ∈ m.components, c.name ≠ A) ∨ (∀ c ∈ m.components, c.name ≠ B) := by
  cases hA : m.get_component A with
  | none =>
      constructor
      · intro _
        exact Or.inl ((findComponent_eq_none_iff A m.components).mp hA)
      · intro _
        cases hB : m.get_component B <;>
          simp [WardleyMap.link_components, hA, hB]
  | some src =>
      cases hB : m.get_component B with
      | none =>
          constructor
          · intro _
            exact Or.inr ((findComponent_eq_none_iff B m.components).mp hB)
          · intro _
            simp [WardleyMap.link_components, hA, hB]
      | some tgt =>
          constructor
          · intro h
            exfalso
            by_cases hmem : B ∈ src.dependencies <;>
              simp [WardleyMap.link_components, hA, hB, hmem] at h
          · rintro (h | h)
            · rcases findComponent_some_mem A m.components src hA with ⟨hm, hn⟩
              exact absurd hn (h src hm)
            · rcases findComponent_some_mem B m.components tgt hB with ⟨hm, hn⟩
              exact absurd hn (h tgt hm)

/-- C10: when `link_components` fails because an endpoint is missing, the map
is exactly as it was: the whole map, its component sequence (hence every
component's dependencies) and its metadata are unchanged. -/
theorem link_components_failure_frame (m : WardleyMap) (A B : String)
    (h : (m.link_components A B).2 = some LinkError.missingComponent) :
    (m.link_components A B).1 = m ∧
    (m.link_components A B).1.components = m.components ∧
    (m.link_components A B).1.metadata = m.metadata := by
  cases hA : m.get_component A with
  | none =>
      cases hB : m.get_component B <;>
        simp [WardleyMap.link_components, hA, hB]
  | some src =>
      cases hB : m.get_component B with
      | none => simp [WardleyMap.link_components, hA, hB]
      | some tgt =>
          exfalso
          by_cases hmem : B ∈ src.dependencies <;>
            simp [WardleyMap.link_components, hA, hB, hmem] at h

/-- C10 witness: linking to the absent component `B` in a one-component map
fails and leaves the map unchanged. -/
theorem link_components_failure_frame_witness :
    (sampleMapNoB.link_components "A" "B").2 = some LinkError.missingComponent ∧
    (sampleMapNoB.link_components "A" "B").1 = sampleMapNoB :=
  ⟨by rfl, (link_components_failure_frame sampleMapNoB "A" "B" (by rfl)).1⟩

/-- C2 counterexample: on a graph whose `A` was constructed with `B` listed
twice among its dependencies, two successive `link_components("A", "B")` calls
leave two occurrences of `B`, not exactly one, because an already-present
target is never appended and never deduplicated. -/
theorem link_twice_duplicate_cex :
    ((((dupDepsMap.link_components "A" "B").1.link_components "A" "B").1.get_component "A").map
        (fun c => c.dependencies.count "B") = some 2) ∧
    ((((dupDepsMap.link_components "A" "B").1.link_components "A" "B").1.get_component "A").map
        (fun c => c.dependencies.count "B") ≠ some 1) := by
  constructor
  · rfl
  · decide

/-- Characterization of a no-op link: both endpoints resolve and the target is
already a dependency of the source. -/
theorem link_components_eq_of_mem (m : WardleyMap) (A B : String)
    (src tgt : WardleyComponent)
    (hA : m.get_component A = some src) (hB : m.get_component B = some tgt)
    (hmem : B ∈ src.dependencies) :
    m.link_components A B = (m, none) := by
  unfold WardleyMap.link_components
  rw [hA, hB]
  simp [hmem]

/-- Characterization of an appending link: both endpoints resolve and the
target is not yet a dependency of the source. -/
theorem link_components_eq_of_not_mem (m : WardleyMap) (A B : String)
    (src tgt : WardleyComponent)
    (hA : m.get_component A = some src) (hB : m.get_component B = some tgt)
    (hmem : B ∉ src.dependencies) :
    m.link_components A B =
      ({ m with components := linkUpdate A B m.components }, none) := by
  unfold WardleyMap.link_components
  rw [hA, hB]
  simp [hmem]

/-- Characterization of a failing link: some endpoint does not resolve. -/
theorem link_components_eq_of_missing (m : WardleyMap) (A B : String)
    (h : m.get_component A = none ∨ m.get_component B = none) :
    m.link_components A B = (m, some LinkError.missingComponent) := by
  unfold WardleyMap.link_components
  rcases h with h | h
  · rw [h]
  · cases hA : m.get_component A with
    | none => rw [h]
    | some src => rw [h]

/-- C2 (amended): when a `link_components` call succeeds, calling it again with
the same pair returns the graph unchanged (the second call has no additional
effect); and when the target did not occur at all in the source's dependencies
beforehand, the result has exactly one occurrence of the target there. -/
theorem link_components_idempotent (m m₁ : WardleyMap) (A B : String)
    (h : m.link_components A B = (m₁, none)) :
    m₁.link_components A B = (m₁, none) ∧
    ∀ c, m.get_component A = some c → c.dependencies.count B = 0 →
      ∃ c₁, m₁.get_component A = some c₁ ∧ c₁.dependencies.count B = 1 := by
  cases hA : m.get_component A with
  | none =>
      rw [link_components_eq_of_missing m A B (Or.inl hA)] at h
      simp at h
  | some src =>
      cases hB : m.get_component B with
      | none =>
          rw [link_components_eq_of_missing m A B (Or.inr hB)] at h
          simp at h
      | some tgt =>
          by_cases hmem : B ∈ src.dependencies
          · rw [link_components_eq_of_mem m A B src tgt hA hB hmem] at h
            have hm : m = m₁ := congrArg Prod.fst h
            constructor
            · rw [← hm]
              exact link_components_eq_of_mem m A B src tgt hA hB hmem
            · intro c hc hcount
              have hcs : src = c := Option.some.inj hc
              subst hcs
              exact absurd hmem (List.count_eq_zero.mp hcount)
          · rw [link_components_eq_of_not_mem m A B src tgt hA hB hmem] at h
            have hm : { m with components := linkUpdate A B m.components } = m₁ :=
              congrArg Prod.fst h
            have hA₁ : m₁.get_component A =
                some { src with dependencies := src.dependencies ++ [B] } := by
              rw [← hm]
              exact findComponent_updateFirst A B m.components src hA
            have hB₁ : (m₁.get_component B).isSome = true := by
              rw [← hm]
              show (findComponent B (linkUpdate A B m.components)).isSome = true
              unfold linkUpdate
              rw [findComponent_updateFirst_isSome]
              have htgt : findComponent B m.components = some tgt := hB
              simp [htgt]
            obtain ⟨tgt₁, hB₁'⟩ := Option.isSome_iff_exists.mp hB₁
            have hmem₁ : B ∈ src.dependencies ++ [B] := by simp
            constructor
            · exact link_components_eq_of_mem m₁ A B _ tgt₁ hA₁ hB₁' hmem₁
            · intro c hc hcount
              have hcs : src = c := Option.some.inj hc
              subst hcs
              refine ⟨{ src with dependencies := src.dependencies ++ [B] }, hA₁, ?_⟩
              simp [List.count_append, hcount]

/-- C2 witness: in the two-component sample map, linking `A` to `B` succeeds,
a second call is a no-op, and `B` occurs exactly once afterwards. -/
theorem link_components_idempotent_witness :
    (sampleMap.link_components "A" "B" = (sampleMapLinked, none)) ∧
    sampleMapLinked.link_components "A" "B" = (sampleMapLinked, none) ∧
    ∃ c₁, sampleMapLinked.get_component "A" = some c₁ ∧ c₁.dependencies.count "B" = 1 :=
  ⟨by rfl,
   (link_components_idempotent sampleMap sampleMapLinked "A" "B" (by rfl)).1,
   (link_components_idempotent sampleMap sampleMapLinked "A" "B" (by rfl)).2
     sampleA (by rfl) (by rfl)⟩

/-- Appending a component whose name is fresh makes the scan find it. -/
theorem findComponent_append_fresh (n : String) (l : List WardleyComponent)
    (c : WardleyComponent) (hc : c.name = n) (h : ∀ x ∈ l, x.name ≠ n) :
    findComponent n (l ++ [c]) = some c := by
  induction l with
  | nil => simp [findComponent, hc]
  | cons a rest ih =>
      have ha : a.name ≠ n := h a (List.mem_cons_self a rest)
      simp only [List.cons_append, findComponent, if_neg ha]
      exact ih (fun x hx => h x (List.mem_cons_of_mem a hx))

/-- C5 counterexample: on a graph that already holds a component named `A`,
adding a second, structurally different component also named `A` and looking
`A` up returns the pre-existing first match, not the component just added. -/
theorem add_get_duplicate_cex :
    (dupNameMap.add_component newA).get_component "A" ≠ some newA ∧
    (dupNameMap.add_component newA).get_component "A" =
      some { name := "A", visibility := 1, evolution := 1, dependencies := [] } := by
  constructor
  · decide
  · rfl

/-- C5 (amended): adding a component and looking its name up returns exactly
the component added, provided no component of that name already existed in the
graph (lookup is first-match, so an earlier namesake would win instead). -/
theorem add_component_get_component_fresh (m : WardleyMap) (c : WardleyComponent)
    (h : ∀ x ∈ m.components, x.name ≠ c.name) :
    (m.add_component c).get_component c.name = some c :=
  findComponent_append_fresh c.name m.components c rfl h

/-- C5 witness: adding `B` to the map holding only `A` and looking `B` up
returns `B` itself. -/
theorem add_component_get_component_fresh_witness :
    (∀ x ∈ sampleMapNoB.components, x.name ≠ sampleB.name) ∧
    (sampleMapNoB.add_component sampleB).get_component sampleB.name = some sampleB :=
  ⟨by decide, add_component_get_component_fresh sampleMapNoB sampleB (by decide)⟩

/-- C6 counterexample: constructing a component supplying only the name is a
missing-required-argument error (`TypeError`), not a component with
visibility 0.0: the dataclass declares no default for `visibility` or
`evolution`. -/
theorem construct_name_only_cex :
    constructComponent { nameArg := "A", visibilityArg := none, evolutionArg := none,
                         dependenciesArg := none } =
      Except.error CtorError.missingRequiredArgument := by
  rfl

/-- C6 (amended): construction requires `name`, `visibility` and `evolution`;
only `dependencies` may be omitted, defaulting to the empty sequence.
Omitting `visibility` or `evolution` is a construction error, not a 0.0
default (the 0.0 defaults exist only in document loading). -/
theorem construct_required_and_default (n : String) (v e : PyFloat) (d : List String) :
    constructComponent { nameArg := n, visibilityArg := some v, evolutionArg := some e,
                         dependenciesArg := none } =
      Except.ok { name := n, visibility := v, evolution := e, dependencies := [] } ∧
    constructComponent { nameArg := n, visibilityArg := some v, evolutionArg := some e,
                         dependenciesArg := some d } =
      Except.ok { name := n, visibility := v, evolution := e, dependencies := d } ∧
    constructComponent { nameArg := n, visibilityArg := none, evolutionArg := some e,
                         dependenciesArg := none } =
      Except.error CtorError.missingRequiredArgument ∧
    constructComponent { nameArg := n, visibilityArg := some v, evolutionArg := none,
                         dependenciesArg := none } =
      Except.error CtorError.missingRequiredArgument :=
  ⟨rfl, rfl, rfl, rfl⟩

/-- C7: every component produced by a successful load corresponds to its
document entry pointwise: the name is taken verbatim, a missing `visibility`
yields 0.0, a missing `evolution` yields 0.0, and missing `dependencies`
yields the empty sequence. -/
theorem load_map_component_defaults (d : MapDoc) (m : WardleyMap)
    (h : load_map (some d) = Except.ok m) :
    List.Forall₂ (fun (e : CompEntry) (c : WardleyComponent) =>
        e.name? = some c.name ∧
        c.visibility = e.visibility?.getD 0 ∧
        c.evolution = e.evolution?.getD 0 ∧
        c.dependencies = e.dependencies?.getD [])
      (d.components?.getD []) m.components := by
  cases hl : loadComponents (d.components?.getD []) with
  | error err => simp [load_map, hl] at h
  | ok cs =>
      simp only [load_map, Option.getD_some, hl] at h
      cases h
      exact loadComponents_forall₂ _ cs hl

/-- C7 witness: loading a document whose single entry omits `visibility` and
`dependencies` yields a component with visibility 0 and no dependencies. -/
theorem load_map_component_defaults_witness :
    (load_map (some sampleDoc) = Except.ok sampleLoaded) ∧
    List.Forall₂ (fun (e : CompEntry) (c : WardleyComponent) =>
        e.name? = some c.name ∧
        c.visibility = e.visibility?.getD 0 ∧
        c.evolution = e.evolution?.getD 0 ∧
        c.dependencies = e.dependencies?.getD [])
      (sampleDoc.components?.getD []) sampleLoaded.components :=
  ⟨by rfl, load_map_component_defaults sampleDoc sampleLoaded (by rfl)⟩

/-- C8: if any component entry of the document lacks a `name`, the load fails
with the missing-field error; since the result is that error, no (partial)
graph is returned to the caller. -/
theorem load_map_missing_name (d : MapDoc) (e : CompEntry)
    (hmem : e ∈ d.components?.getD []) (hname : e.name? = none) :
    load_map (some d) = Except.error LoadError.missingField := by
  have hl := loadComponents_missing_name (d.components?.getD []) e hmem hname
  simp [load_map, hl]

/-- C8 witness: loading `badDoc`, whose second entry has no `name`, fails with
the missing-field error. -/
theorem load_map_missing_name_witness :
    (badEntry ∈ badDoc.components?.getD [] ∧ badEntry.name? = none) ∧
    load_map (some badDoc) = Except.error LoadError.missingField :=
  ⟨⟨by decide, rfl⟩, load_map_missing_name badDoc badEntry (by decide) rfl⟩

/-- C9: in the heap-aware model, `to_dict` returns a projection carrying the
component's name, visibility and evolution, whose dependencies value reads
equal to the live dependencies at projection time, and any later mutation
(overwrite) of the live dependencies cell leaves the projection's dependencies
unchanged, because `list(...)` allocated a fresh cell. -/
theorem to_dict_dependencies_copy (s : Store) (c : HComponent)
    (hv : c.depsRef < s.cells.length) :
    (HComponent.to_dict s c).2.name = c.name ∧
    (HComponent.to_dict s c).2.visibility = c.visibility ∧
    (HComponent.to_dict s c).2.evolution = c.evolution ∧
    Store.read (HComponent.to_dict s c).1 (HComponent.to_dict s c).2.depsRef =
      Store.read s c.depsRef ∧
    ∀ v, Store.read (Store.write (HComponent.to_dict s c).1 c.depsRef v)
        (HComponent.to_dict s c).2.depsRef =
      Store.read (HComponent.to_dict s c).1 (HComponent.to_dict s c).2.depsRef := by
  refine ⟨rfl, rfl, rfl, ?_, ?_⟩
  · show (s.cells ++ [Store.read s c.depsRef]).getD s.cells.length [] =
      Store.read s c.depsRef
    exact getD_append_length s.cells _
  · intro v
    show ((s.cells ++ [Store.read s c.depsRef]).set c.depsRef v).getD s.cells.length [] =
      (s.cells ++ [Store.read s c.depsRef]).getD s.cells.length []
    exact getD_set_ne _ c.depsRef s.cells.length v (Nat.ne_of_lt hv)

/-- C9 witness: with one live cell `["Database"]` at address 0, the projection
of a component referencing it keeps reading `["Database"]` even after the live
cell is overwritten. -/
theorem to_dict_dependencies_copy_witness :
    sampleHComp.depsRef < sampleStore.cells.length ∧
    Store.read (HComponent.to_dict sampleStore sampleHComp).1
        (HComponent.to_dict sampleStore sampleHComp).2.depsRef =
      Store.read sampleStore sampleHComp.depsRef ∧
    Store.read
        (Store.write (HComponent.to_dict sampleStore sampleHComp).1
          sampleHComp.depsRef ["X"])
        (HComponent.to_dict sampleStore sampleHComp).2.depsRef =
      Store.read (HComponent.to_dict sampleStore sampleHComp).1
        (HComponent.to_dict sampleStore sampleHComp).2.depsRef :=
  ⟨by decide,
   (to_dict_dependencies_copy sampleStore sampleHComp (by decide)).2.2.2.1,
   (to_dict_dependencies_copy sampleStore sampleHComp (by decide)).2.2.2.2 ["X"]⟩
